import Mathlib

/-!
Shallow embedding of the `thread_pool` repository:
`MutexQueue<T, kMaxSize>` (mutex_queue.h) and `ThreadPool` (thread_pool.h).

The queue is modelled as a Lean list (front at the head, `emplace` appends at
the tail, `pop` removes the head), together with the sticky cancellation flag
`alert_for_exit_`.  The mutex is implicit: each C++ member function runs as one
critical section, so each becomes one pure state transition.  A blocking
operation (`condition_variable::wait` with a predicate) is modelled as
`Option`-valued: `none` means the call stays blocked because its wait predicate
is false; `some` is the result computed from the state at the moment the
predicate holds, exactly as the code does under the lock.
-/

namespace MutexQueue

/-- The guarded state of `MutexQueue`: the `std::queue<T> queue_` (front at the
list head) and the `std::atomic<bool> alert_for_exit_` flag. -/
structure State (T : Type) where
  queue : List T
  alert : Bool
  deriving Repr, DecidableEq

variable {T : Type}

/-- `bool is_full() { return queue_.size() >= kMaxSize; }` -/
def is_full (cap : Nat) (s : State T) : Bool :=
  decide (cap ≤ s.queue.length)

/-- `bool is_empty() { return queue_.empty(); }` -/
def is_empty (s : State T) : Bool :=
  s.queue.isEmpty

/-- `auto size() { lock; return queue_.size(); }` -/
def size (s : State T) : Nat :=
  s.queue.length

/-- `auto empty() { lock; return queue_.size(); }` — the source's `empty`
member returns `queue_.size()`, not `queue_.empty()`. -/
def empty (s : State T) : Nat :=
  s.queue.length

/-- `bool emplace_wait_if_full(Args&&... args)`: wait on `not_full_notifier_`
for `!is_full() || alert_for_exit_`; then if `!is_full()` emplace at the tail
and return `true`, otherwise return `false`.  `none` models the call still
blocked in the wait. -/
def emplace_wait_if_full (cap : Nat) (s : State T) (x : T) :
    Option (Bool × State T) :=
  if !is_full cap s || s.alert then
    if !is_full cap s then
      some (true, { s with queue := s.queue ++ [x] })
    else
      some (false, s)
  else
    none

/-- The `while (is_full()) queue_.pop();` loop of `emplace_overwrite_oldest`:
drop elements from the head while the queue is full. -/
def evict (cap : Nat) : List T → List T
  | [] => []
  | x :: xs => if cap ≤ (x :: xs).length then evict cap xs else x :: xs

/-- `void emplace_overwrite_oldest(Args&&... args)`: never blocks; pop from the
head while full, then emplace at the tail. -/
def emplace_overwrite_oldest (cap : Nat) (s : State T) (x : T) : State T :=
  { s with queue := evict cap s.queue ++ [x] }

/-- `bool pop_if_not_empty(T* value)`: never blocks; on an empty queue return
`false`; otherwise copy the front into `*value` when the pointer is non-null
(`useDst` models `value != nullptr`), pop, and return `true`.  The middle
component is the value written through the pointer, `none` when nothing is
written. -/
def pop_if_not_empty (useDst : Bool) (s : State T) :
    Bool × Option T × State T :=
  if is_empty s then
    (false, none, s)
  else
    (true, if useDst then s.queue.head? else none,
     { s with queue := s.queue.tail })

/-- `bool pop_wait_if_empty(T* value)`: wait on `not_empty_notifier_` for
`!is_empty() || alert_for_exit_`; then if `!is_empty()` move the front into
`*value` when the pointer is non-null, pop and return `true`, otherwise return
`false`.  `none` models the call still blocked in the wait. -/
def pop_wait_if_empty (useDst : Bool) (s : State T) :
    Option (Bool × Option T × State T) :=
  if !is_empty s || s.alert then
    if !is_empty s then
      some (true, if useDst then s.queue.head? else none,
            { s with queue := s.queue.tail })
    else
      some (false, none, s)
  else
    none

/-- `bool is_alert() { return alert_for_exit_; }` -/
def is_alert (s : State T) : Bool :=
  s.alert

/-- `void alert_for_exit()`: set `alert_for_exit_` and notify
`not_empty_notifier_` (state part; the notifications are modelled
separately below). -/
def alert_for_exit (s : State T) : State T :=
  { s with alert := true }

/-- The two `std::condition_variable` members of `MutexQueue`. -/
inductive CondVar : Type
  | notEmpty
  | notFull
  deriving Repr, DecidableEq

/-- The condition variables on which `alert_for_exit` calls `notify_all()`:
the body is exactly `alert_for_exit_ = true; not_empty_notifier_.notify_all();`
so only `not_empty_notifier_` is notified. -/
def alert_for_exit_notifies : List CondVar :=
  [CondVar.notEmpty]

/-- The condition variable `emplace_wait_if_full` waits on:
`not_full_notifier_.wait(lg, ...)`. -/
def emplace_wait_waits_on : CondVar :=
  CondVar.notFull

/-- The condition variable `pop_wait_if_empty` waits on:
`not_empty_notifier_.wait(lock, ...)`. -/
def pop_wait_waits_on : CondVar :=
  CondVar.notEmpty

/-- The wait predicate of `emplace_wait_if_full`:
`!is_full() || alert_for_exit_`. -/
def emplace_wait_pred (cap : Nat) (s : State T) : Bool :=
  !is_full cap s || s.alert

/-- A thread blocked inside a `condition_variable::wait(lock, pred)` on
condition `c` is released by a notifying call exactly when `c` is among the
conditions that call notifies and its predicate now holds; otherwise it keeps
sleeping even if the predicate has become true. -/
def releasedBy (c : CondVar) (pred : Bool) (notified : List CondVar) : Bool :=
  decide (c ∈ notified) && pred

/-- One queue operation of the public interface, for reasoning about
arbitrary operation sequences. -/
inductive Op (T : Type) : Type
  | pushWait (x : T)
  | pushOverwrite (x : T)
  | popTry
  | popWait
  | cancel
  deriving Repr, DecidableEq

/-- The state transition of one operation.  A blocked call (`none` from the
`Option`-valued operations) leaves the state unchanged: the waiting thread has
not yet re-entered the critical section. -/
def step (cap : Nat) (s : State T) : Op T → State T
  | .pushWait x =>
      match emplace_wait_if_full cap s x with
      | some (_, s') => s'
      | none => s
  | .pushOverwrite x => emplace_overwrite_oldest cap s x
  | .popTry => (pop_if_not_empty false s).2.2
  | .popWait =>
      match pop_wait_if_empty false s with
      | some (_, _, s') => s'
      | none => s
  | .cancel => alert_for_exit s

/-- Run a sequence of operations from a starting state. -/
def run (cap : Nat) (s : State T) (ops : List (Op T)) : State T :=
  ops.foldl (step cap) s

/-- Push a whole list with `emplace_wait_if_full`, collecting each call's
boolean result.  A call that stays blocked (`none`) contributes `false` and
leaves the state unchanged. -/
def pushAll (cap : Nat) : List T → State T → List Bool × State T
  | [], s => ([], s)
  | x :: xs, s =>
      match emplace_wait_if_full cap s x with
      | some (ok, s') =>
          let r := pushAll cap xs s'
          (ok :: r.1, r.2)
      | none =>
          let r := pushAll cap xs s
          (false :: r.1, r.2)

/-- One pop by either flavour (`useWait = true` for `pop_wait_if_empty`,
`false` for `pop_if_not_empty`), with a non-null destination pointer.
Returns the popped value, if any, and the new state; a blocked waiting pop
leaves the state unchanged and yields nothing. -/
def popAny (useWait : Bool) (s : State T) : Option T × State T :=
  if useWait then
    match pop_wait_if_empty true s with
    | some (ok, v, s') => (if ok then v else none, s')
    | none => (none, s)
  else
    match pop_if_not_empty true s with
    | (ok, v, s') => (if ok then v else none, s')

/-- Perform one pop per entry of `ws` (each entry choosing the flavour) and
collect the values obtained, in order. -/
def popSeq : List Bool → State T → List T × State T
  | [], s => ([], s)
  | w :: ws, s =>
      let r := popAny w s
      let rest := popSeq ws r.2
      (r.1.toList ++ rest.1, rest.2)

/-- The state after one `pop_wait_if_empty` call (discarding the outputs);
a blocked call leaves the state unchanged. -/
def pop_wait_state (s : State T) : State T :=
  match pop_wait_if_empty false s with
  | some (_, _, s') => s'
  | none => s

end MutexQueue

namespace ThreadPool

open MutexQueue

/-- Modelled from the spec: the result slot of a task.  `std::packaged_task`
(used by `ThreadPool::enqueue` and the worker loop but defined outside this
repository) runs the bound callable when invoked; any error the body raises is
captured into the task's shared state instead of propagating out of
`operator()`, and `future::get` later yields the stored value or re-raises the
stored error to the reader.  The body is a computation that either returns a
value or raises an error, i.e. `Except E V`. -/
structure PackagedTask (V E : Type) where
  fn : Unit → Except E V
  slot : Option (Except E V)

/-- Modelled from the spec: invoking the packaged task (`task()` in the worker
loop) runs the body and stores its outcome — value or captured error — in the
result slot.  It always returns normally to the worker. -/
def PackagedTask.run {V E : Type} (t : PackagedTask V E) : PackagedTask V E :=
  { t with slot := some (t.fn ()) }

/-- Modelled from the spec: reading the future (`f.get()`) once the task has
executed yields the stored outcome; `some (.error e)` means the read re-raises
`e` in the caller, `some (.ok v)` means it returns `v`, `none` means the slot
is not yet written (the read would still be blocked). -/
def futureGet {V E : Type} (t : PackagedTask V E) : Option (Except E V) :=
  t.slot

/-- The capacity of the pool's task queue, as declared by the member
`MutexQueue<std::packaged_task<void()>, 128> task_queue_;` — a compile-time
constant that does not depend on the constructor argument
`max_thread_number`. -/
def taskQueueCapacity (_max_thread_number : Nat) : Nat :=
  128

/-- `ThreadPool::enqueue` wraps the callable and its bound arguments into a
fresh packaged task (empty result slot), keeps its future, and pushes the task
with `task_queue_.emplace_wait_if_full`.  Returns the push result together
with the new queue state. -/
def enqueue {V E : Type} (n : Nat) (q : State (PackagedTask V E))
    (fn : Unit → Except E V) :
    Option (Bool × State (PackagedTask V E)) :=
  emplace_wait_if_full (taskQueueCapacity n) q ⟨fn, none⟩

/-- Whether a call to `enqueue` blocks the submitting thread: the inner
`emplace_wait_if_full` stays in its wait. -/
def enqueue_blocked {V E : Type} (n : Nat) (q : State (PackagedTask V E))
    (fn : Unit → Except E V) : Prop :=
  enqueue n q fn = none

/-- One iteration of the worker loop `thread_task`: pop with
`pop_wait_if_empty(&task)`; on `false` break out of the loop (worker exits);
otherwise invoke the task and keep looping.  `none` models the worker still
blocked in the pop; `some (none, q)` models the worker having exited;
`some (some t, q)` models the worker having run the popped task `t` and
continuing. -/
def worker_iteration {V E : Type} (q : State (PackagedTask V E)) :
    Option (Option (PackagedTask V E) × State (PackagedTask V E)) :=
  match pop_wait_if_empty true q with
  | none => none
  | some (false, _, q') => some (none, q')
  | some (true, v, q') => some (v.map PackagedTask.run, q')

end ThreadPool

open MutexQueue


/-- Helper: a queue whose list is non-empty is not `is_empty`. -/
theorem is_empty_eq_false_of_ne_nil {T : Type} {s : State T}
    (h : s.queue ≠ []) : is_empty s = false := by
  simp [is_empty, List.isEmpty_iff, h]

/-- Claim C1, counterexample: cancel the empty queue of capacity 2, then call
the blocking push; it returns success and enqueues the item, contradicting the
claim that every push after cancellation returns failure and enqueues
nothing. -/
theorem emplace_after_cancel_can_succeed :
    alert_for_exit (⟨[], false⟩ : State Nat) = ⟨[], true⟩ ∧
    emplace_wait_if_full 2 (⟨[], true⟩ : State Nat) 5 = some (true, ⟨[5], true⟩) :=
  ⟨rfl, rfl⟩

/-- Claim C1, amended: once cancel has been called, the blocking push never
blocks; it returns failure and enqueues nothing exactly when the queue is full
at the time of the call, and otherwise enqueues the item and returns
success. -/
theorem emplace_wait_if_full_after_cancel {T : Type} (cap : Nat) (s : State T)
    (x : T) (h : s.alert = true) :
    emplace_wait_if_full cap s x =
      if is_full cap s then some (false, s)
      else some (true, { s with queue := s.queue ++ [x] }) := by
  unfold emplace_wait_if_full
  rw [h]
  by_cases hf : is_full cap s = true
  · simp [hf]
  · simp [hf]

/-- Witness for C1's amended theorem at a concrete cancelled state. -/
theorem emplace_wait_if_full_after_cancel_witness :
    emplace_wait_if_full 2 (⟨[7], true⟩ : State Nat) 5 =
      some (true, ⟨[7, 5], true⟩) := by
  have h := emplace_wait_if_full_after_cancel 2 (⟨[7], true⟩ : State Nat) 5 rfl
  simpa using h


/-- Claim C2: `alert_for_exit` notifies only `not_empty_notifier_`, not both
conditions.  At the concrete failing input — capacity 1, queue `[0]`, a
producer blocked in `emplace_wait_if_full` — the producer waits on
`not_full_notifier_`; after cancellation its wait predicate holds, yet the
notification set of `alert_for_exit` does not contain its condition, so the
blocked producer is not released.  This contradicts the claim (and the spec's
stated requirement) that cancellation notifies all waiters on both
conditions. -/
theorem alert_for_exit_leaves_full_producer_blocked :
    emplace_wait_if_full 1 (⟨[0], false⟩ : State Nat) 7 = none ∧
    alert_for_exit (⟨[0], false⟩ : State Nat) = ⟨[0], true⟩ ∧
    alert_for_exit_notifies = [CondVar.notEmpty] ∧
    emplace_wait_waits_on = CondVar.notFull ∧
    emplace_wait_pred 1 (⟨[0], true⟩ : State Nat) = true ∧
    releasedBy emplace_wait_waits_on
      (emplace_wait_pred 1 (⟨[0], true⟩ : State Nat))
      alert_for_exit_notifies = false :=
  ⟨rfl, rfl, rfl, rfl, rfl, rfl⟩

/-- Claim C3: after cancellation the blocking pop never blocks; whenever the
queue is non-empty it removes and returns the head, and it returns `false`
exactly when the queue is empty — and since a failing call leaves the state
unchanged, once empty every subsequent call also returns `false`. -/
theorem pop_wait_if_empty_after_cancel {T : Type} (useDst : Bool) (s : State T)
    (h : s.alert = true) :
    pop_wait_if_empty useDst s =
      (if s.queue.isEmpty then some (false, none, s)
       else some (true, (if useDst then s.queue.head? else none),
                  { s with queue := s.queue.tail })) ∧
    (s.queue = [] → ∀ n : Nat,
      pop_wait_if_empty useDst (pop_wait_state^[n] s) = some (false, none, s)) := by
  constructor
  · unfold pop_wait_if_empty is_empty
    rw [h]
    by_cases he : s.queue.isEmpty = true
    · simp [he]
    · simp [he]
  · intro hnil n
    have hfix : pop_wait_state s = s := by
      unfold pop_wait_state pop_wait_if_empty is_empty
      rw [h, hnil]
      rfl
    rw [Function.iterate_fixed hfix n]
    unfold pop_wait_if_empty is_empty
    rw [h, hnil]
    rfl

/-- Witness for C3 at a concrete cancelled state holding one element. -/
theorem pop_wait_if_empty_after_cancel_witness :
    pop_wait_if_empty true (⟨[1], true⟩ : State Nat) =
      some (true, some 1, ⟨[], true⟩) := by
  have h := pop_wait_if_empty_after_cancel true (⟨[1], true⟩ : State Nat) rfl
  simpa using h.1

/-- Claim C4: the public observer `empty()` returns the same value as
`size()` — the element count — and converted to a boolean it is `true`
exactly when the queue is non-empty. -/
theorem empty_eq_size {T : Type} (s : State T) :
    empty s = size s ∧ (empty s ≠ 0 ↔ s.queue ≠ []) := by
  refine ⟨rfl, ?_⟩
  simp [empty, List.length_eq_zero]

/-- Claim C9: both pop operations, called with a null destination pointer
(`useDst = false`) on a non-empty queue, still remove the head element,
write nothing through the pointer, and report success. -/
theorem pop_null_destination {T : Type} (s : State T) (h : s.queue ≠ []) :
    pop_if_not_empty false s = (true, none, { s with queue := s.queue.tail }) ∧
    pop_wait_if_empty false s =
      some (true, none, { s with queue := s.queue.tail }) := by
  have he : is_empty s = false := is_empty_eq_false_of_ne_nil h
  constructor
  · unfold pop_if_not_empty
    rw [he]
    rfl
  · unfold pop_wait_if_empty
    rw [he]
    rfl

/-- Witness for C9 at a concrete two-element queue. -/
theorem pop_null_destination_witness :
    pop_if_not_empty false (⟨[3, 4], false⟩ : State Nat) =
      (true, none, ⟨[4], false⟩) ∧
    pop_wait_if_empty false (⟨[3, 4], false⟩ : State Nat) =
      some (true, none, ⟨[4], false⟩) := by
  have h := pop_null_destination (⟨[3, 4], false⟩ : State Nat) (by simp)
  simpa using h

/-- Helper: the eviction loop always leaves strictly fewer than `cap`
elements (for positive capacity). -/
theorem evict_length_lt {T : Type} (cap : Nat) (hcap : 0 < cap)
    (q : List T) : (evict cap q).length < cap := by
  induction q with
  | nil => simpa [evict] using hcap
  | cons x xs ih =>
      unfold evict
      by_cases h : cap ≤ (x :: xs).length
      · rw [if_pos h]; exact ih
      · rw [if_neg h]; omega

/-- Helper: the state reached by one blocking push is either unchanged or,
when there was room, the queue with the item appended. -/
theorem pushWait_state_cases {T : Type} (cap : Nat) (s : State T) (x : T) :
    step cap s (.pushWait x) = s ∨
    (s.queue.length < cap ∧
      step cap s (.pushWait x) = { s with queue := s.queue ++ [x] }) := by
  unfold step emplace_wait_if_full
  cases hful : is_full cap s with
  | false =>
      right
      have hlt : s.queue.length < cap := by
        simp [is_full] at hful
        omega
      exact ⟨hlt, by simp [hful]⟩
  | true =>
      left
      cases hal : s.alert <;> simp [hful, hal]

/-- Helper: every single operation preserves `queue length ≤ cap`. -/
theorem step_length_le {T : Type} (cap : Nat) (hcap : 0 < cap) (s : State T)
    (hs : s.queue.length ≤ cap) (op : Op T) :
    (step cap s op).queue.length ≤ cap := by
  cases op with
  | pushWait x =>
      rcases pushWait_state_cases cap s x with h | ⟨hlt, h⟩
      · rw [h]; exact hs
      · rw [h]; simp; omega
  | pushOverwrite x =>
      show (emplace_overwrite_oldest cap s x).queue.length ≤ cap
      unfold emplace_overwrite_oldest
      have := evict_length_lt cap hcap s.queue
      simp
      omega
  | popTry =>
      unfold step pop_if_not_empty
      cases he : is_empty s with
      | true => simp [he]; exact hs
      | false =>
          have := List.length_tail s.queue
          simp [he]
          omega
  | popWait =>
      unfold step pop_wait_if_empty
      cases he : is_empty s with
      | true => cases hal : s.alert <;> simp [he, hal] <;> exact hs
      | false =>
          have := List.length_tail s.queue
          simp [he]
          omega
  | cancel => exact hs

/-- Helper: running any operation sequence preserves `queue length ≤ cap`. -/
theorem run_length_le {T : Type} (cap : Nat) (hcap : 0 < cap) :
    ∀ (ops : List (Op T)) (s : State T), s.queue.length ≤ cap →
      (run cap s ops).queue.length ≤ cap := by
  intro ops
  induction ops with
  | nil => intro s hs; exact hs
  | cons op ops ih =>
      intro s hs
      show (run cap (step cap s op) ops).queue.length ≤ cap
      exact ih (step cap s op) (step_length_le cap hcap s hs op)

/-- Claim C5: for every sequence of queue operations starting from an empty
queue, the element count stays between 0 and the capacity `kMaxSize`. -/
theorem count_invariant {T : Type} (cap : Nat) (hcap : 0 < cap)
    (ops : List (Op T)) :
    0 ≤ (run cap ⟨[], false⟩ ops).queue.length ∧
    (run cap ⟨[], false⟩ ops).queue.length ≤ cap :=
  ⟨Nat.zero_le _, run_length_le cap hcap ops ⟨[], false⟩ (by simp)⟩

/-- Witness for C5 at capacity 2 over a concrete mixed operation sequence. -/
theorem count_invariant_witness :
    0 ≤ (run 2 (⟨[], false⟩ : State Nat)
      [Op.pushWait 1, Op.pushWait 2, Op.pushWait 3, Op.pushOverwrite 4,
       Op.popTry, Op.cancel, Op.popWait]).queue.length ∧
    (run 2 (⟨[], false⟩ : State Nat)
      [Op.pushWait 1, Op.pushWait 2, Op.pushWait 3, Op.pushOverwrite 4,
       Op.popTry, Op.cancel, Op.popWait]).queue.length ≤ 2 :=
  count_invariant 2 (by decide)
    [Op.pushWait 1, Op.pushWait 2, Op.pushWait 3, Op.pushOverwrite 4,
     Op.popTry, Op.cancel, Op.popWait]

/-- Helper: eviction does nothing on a queue that is not full. -/
theorem evict_of_length_lt {T : Type} {cap : Nat} {q : List T}
    (h : q.length < cap) : evict cap q = q := by
  cases q with
  | nil => rfl
  | cons x xs =>
      unfold evict
      rw [if_neg (by omega)]

/-- Helper: on an exactly-full queue, the eviction loop removes exactly the
head element. -/
theorem evict_of_length_eq {T : Type} {cap : Nat} (hcap : 0 < cap)
    {q : List T} (hq : q.length = cap) : evict cap q = q.tail := by
  cases q with
  | nil => simp at hq; omega
  | cons x xs =>
      have hxs : xs.length < cap := by
        simp at hq
        omega
      unfold evict
      rw [if_pos (le_of_eq hq.symm)]
      exact evict_of_length_lt hxs

/-- Helper: one overwrite push on an exactly-full queue drops the head and
appends the new item at the tail. -/
theorem overwrite_full_step {T : Type} (cap : Nat) (hcap : 0 < cap)
    (q : List T) (hq : q.length = cap) (a : Bool) (x : T) :
    emplace_overwrite_oldest cap ⟨q, a⟩ x = ⟨q.tail ++ [x], a⟩ := by
  unfold emplace_overwrite_oldest
  rw [show (⟨q, a⟩ : State T).queue = q from rfl, evict_of_length_eq hcap hq]

/-- Helper: pushing a whole list by the overwrite policy into an exactly-full
queue keeps, in order, the last `cap` elements of the old contents followed by
the pushed items. -/
theorem foldl_overwrite_full {T : Type} (cap : Nat) (hcap : 0 < cap) :
    ∀ (xs q : List T) (a : Bool), q.length = cap →
      xs.foldl (fun s y => emplace_overwrite_oldest cap s y) ⟨q, a⟩ =
        ⟨(q ++ xs).drop xs.length, a⟩ := by
  intro xs
  induction xs with
  | nil => intro q a hq; simp
  | cons x xs ih =>
      intro q a hq
      have hq' : (q.tail ++ [x]).length = cap := by
        have := List.length_tail q
        simp
        omega
      rw [List.foldl_cons, overwrite_full_step cap hcap q hq a x,
          ih (q.tail ++ [x]) a hq']
      cases q with
      | nil => simp at hq; omega
      | cons y q' => simp [List.drop_succ_cons]

/-- Claim C6: the overwrite push never blocks (it is a total state
transition); while the queue is full it removes elements from the head and
then appends the new item at the tail, and pushing `cap + 1` items by this
policy into an initially full queue of size `cap` leaves exactly the most
recent `cap` pushed items, the oldest having been evicted first. -/
theorem overwrite_oldest_scenario {T : Type} (cap : Nat) (hcap : 0 < cap)
    (q : List T) (hq : q.length = cap) (a : Bool) (x : T)
    (xs : List T) (hxs : xs.length = cap + 1) :
    (emplace_overwrite_oldest cap ⟨q, a⟩ x).queue = q.tail ++ [x] ∧
    (xs.foldl (fun s y => emplace_overwrite_oldest cap s y) ⟨q, a⟩).queue =
      xs.tail ∧
    xs.tail.length = cap := by
  refine ⟨by rw [overwrite_full_step cap hcap q hq a x], ?_,
          by simp [List.length_tail]; omega⟩
  rw [foldl_overwrite_full cap hcap xs q a hq]
  show (q ++ xs).drop xs.length = xs.tail
  rw [show xs.length = q.length + 1 by omega, ← List.drop_drop,
      List.drop_left, List.drop_one]

/-- Witness for C6: capacity 2, full queue `[10, 20]`, overwrite-pushing
`[1, 2, 3]`. -/
theorem overwrite_oldest_scenario_witness :
    (emplace_overwrite_oldest 2 (⟨[10, 20], false⟩ : State Nat) 1).queue =
      [20, 1] ∧
    (([1, 2, 3] : List Nat).foldl
      (fun s y => emplace_overwrite_oldest 2 s y) ⟨[10, 20], false⟩).queue =
      [2, 3] ∧
    ([2, 3] : List Nat).length = 2 := by
  have h := overwrite_oldest_scenario 2 (by decide) [10, 20] rfl false 1
    [1, 2, 3] rfl
  simpa using h

/-- Helper: the blocking push on a queue with room appends the item
and succeeds. -/
theorem emplace_wait_if_full_of_room {T : Type} {cap : Nat} {s : State T}
    (h : s.queue.length < cap) (x : T) :
    emplace_wait_if_full cap s x =
      some (true, { s with queue := s.queue ++ [x] }) := by
  have hf : is_full cap s = false := by
    simp [is_full]
    omega
  unfold emplace_wait_if_full
  simp [hf]

/-- Helper: pushing a list that fits entirely makes every call succeed and
appends the items in order. -/
theorem pushAll_success {T : Type} (cap : Nat) :
    ∀ (xs q : List T), q.length + xs.length ≤ cap →
      pushAll cap xs ⟨q, false⟩ =
        (List.replicate xs.length true, ⟨q ++ xs, false⟩) := by
  intro xs
  induction xs with
  | nil => intro q h; simp [pushAll]
  | cons x xs ih =>
      intro q h
      simp only [List.length_cons] at h
      have hlt : q.length < cap := by omega
      unfold pushAll
      rw [emplace_wait_if_full_of_room hlt x]
      have hih : (q ++ [x]).length + xs.length ≤ cap := by
        simp
        omega
      show (true :: (pushAll cap xs ⟨q ++ [x], false⟩).1,
            (pushAll cap xs ⟨q ++ [x], false⟩).2) = _
      rw [ih (q ++ [x]) hih]
      simp [List.replicate_succ]

/-- Helper: either pop flavour on a non-empty queue yields the head and
leaves the rest. -/
theorem popAny_cons {T : Type} (w : Bool) (v : T) (rest : List T) (a : Bool) :
    popAny w ⟨v :: rest, a⟩ = (some v, ⟨rest, a⟩) := by
  cases w <;>
    simp [popAny, pop_wait_if_empty, pop_if_not_empty, is_empty]

/-- Helper: popping once per element, by any mix of the two pop flavours,
returns the whole queue contents in order. -/
theorem popSeq_all {T : Type} :
    ∀ (ws : List Bool) (xs : List T) (a : Bool), ws.length = xs.length →
      popSeq ws ⟨xs, a⟩ = (xs, ⟨[], a⟩) := by
  intro ws
  induction ws with
  | nil =>
      intro xs a h
      cases xs with
      | nil => rfl
      | cons v rest => simp at h
  | cons w ws ih =>
      intro xs a h
      cases xs with
      | nil => simp at h
      | cons v rest =>
          unfold popSeq
          rw [popAny_cons]
          show ((some v).toList ++ (popSeq ws ⟨rest, a⟩).1,
                (popSeq ws ⟨rest, a⟩).2) = _
          rw [ih rest a (by simpa using h)]
          simp

/-- Claim C7: strict FIFO — pushing `N` items (each push completing
successfully, with no overwrite pushes in between) and then popping `N`
times, by any mix of the two pop operations, yields the items in exactly the
order they were pushed. -/
theorem fifo_order {T : Type} (cap : Nat) (xs : List T) (h : xs.length ≤ cap)
    (ws : List Bool) (hw : ws.length = xs.length) :
    pushAll cap xs ⟨[], false⟩ =
      (List.replicate xs.length true, ⟨xs, false⟩) ∧
    popSeq ws ⟨xs, false⟩ = (xs, ⟨[], false⟩) := by
  constructor
  · have hp := pushAll_success cap xs [] (by simpa using h)
    simpa using hp
  · exact popSeq_all ws xs false hw

/-- Witness for C7: three pushes then three pops (mixed flavours) at
capacity 3. -/
theorem fifo_order_witness :
    pushAll 3 [1, 2, 3] (⟨[], false⟩ : State Nat) =
      (List.replicate 3 true, ⟨[1, 2, 3], false⟩) ∧
    popSeq [true, false, true] (⟨[1, 2, 3], false⟩ : State Nat) =
      ([1, 2, 3], ⟨[], false⟩) := by
  have h := fifo_order 3 [1, 2, 3] (by decide) [true, false, true] (by decide)
  simpa using h

/-- Claim C8: submitting a task whose body raises an error `e` enqueues it
normally; the worker iteration pops it, runs it, and keeps looping instead of
exiting — the error is captured into the task's result slot — and reading the
future then re-raises exactly `e`. -/
theorem task_error_captured {V E : Type} (n : Nat) (fn : Unit → Except E V)
    (e : E) (hfn : fn () = .error e) :
    ThreadPool.enqueue n ⟨[], false⟩ fn =
      some (true, ⟨[⟨fn, none⟩], false⟩) ∧
    ThreadPool.worker_iteration
      (⟨[⟨fn, none⟩], false⟩ : State (ThreadPool.PackagedTask V E)) =
      some (some ⟨fn, some (.error e)⟩, ⟨[], false⟩) ∧
    ThreadPool.futureGet
      (⟨fn, some (.error e)⟩ : ThreadPool.PackagedTask V E) =
      some (.error e) := by
  refine ⟨rfl, ?_, rfl⟩
  unfold ThreadPool.worker_iteration
  simp [pop_wait_if_empty, is_empty, ThreadPool.PackagedTask.run, hfn]

/-- Witness for C8: a task raising the error `7` on a pool with 4 workers. -/
theorem task_error_captured_witness :
    ThreadPool.enqueue 4 (⟨[], false⟩ : State (ThreadPool.PackagedTask Nat Nat))
        (fun _ => Except.error 7) =
      some (true, ⟨[⟨fun _ => Except.error 7, none⟩], false⟩) ∧
    ThreadPool.worker_iteration
      (⟨[⟨fun _ => Except.error 7, none⟩], false⟩ :
        State (ThreadPool.PackagedTask Nat Nat)) =
      some (some ⟨fun _ => Except.error 7, some (Except.error 7)⟩,
            ⟨[], false⟩) ∧
    ThreadPool.futureGet
      (⟨fun _ => Except.error 7, some (Except.error 7)⟩ :
        ThreadPool.PackagedTask Nat Nat) =
      some (Except.error 7) :=
  task_error_captured 4 (fun _ => Except.error 7) 7 rfl

/-- Claim C10: the pool's task queue capacity is the compile-time constant
128, independent of the worker count; every operation sequence from the
freshly built pool keeps at most 128 tasks pending; and `enqueue` blocks the
submitting thread exactly when 128 tasks are queued and the queue is not
cancelled. -/
theorem task_queue_capacity_128 {V E : Type} (n : Nat)
    (fn : Unit → Except E V) (q : State (ThreadPool.PackagedTask V E))
    (hq : q.queue.length ≤ 128)
    (ops : List (Op (ThreadPool.PackagedTask V E))) :
    ThreadPool.taskQueueCapacity n = 128 ∧
    (run (ThreadPool.taskQueueCapacity n) ⟨[], false⟩ ops).queue.length
      ≤ 128 ∧
    (ThreadPool.enqueue_blocked n q fn ↔
      q.queue.length = 128 ∧ q.alert = false) := by
  refine ⟨rfl, run_length_le 128 (by decide) ops ⟨[], false⟩ (by simp), ?_⟩
  have hcap : ThreadPool.taskQueueCapacity n = 128 := rfl
  unfold ThreadPool.enqueue_blocked ThreadPool.enqueue
  rw [hcap]
  constructor
  · intro h
    cases hf : is_full 128 q with
    | false => simp [emplace_wait_if_full, hf] at h
    | true =>
        cases ha : q.alert with
        | true => simp [emplace_wait_if_full, hf, ha] at h
        | false =>
            refine ⟨?_, rfl⟩
            simp [is_full] at hf
            omega
  · rintro ⟨h1, h2⟩
    have hf : is_full 128 q = true := by
      simp [is_full]
      omega
    simp [emplace_wait_if_full, hf, h2]

/-- Witness for C10 on a fresh pool with 4 workers and an empty queue. -/
theorem task_queue_capacity_128_witness :
    ThreadPool.taskQueueCapacity 4 = 128 ∧
    (run (ThreadPool.taskQueueCapacity 4)
      (⟨[], false⟩ : State (ThreadPool.PackagedTask Nat Nat))
      []).queue.length ≤ 128 ∧
    (ThreadPool.enqueue_blocked 4
        (⟨[], false⟩ : State (ThreadPool.PackagedTask Nat Nat))
        (fun _ => Except.ok 0) ↔
      (⟨[], false⟩ : State (ThreadPool.PackagedTask Nat Nat)).queue.length
        = 128 ∧
      (⟨[], false⟩ :
        State (ThreadPool.PackagedTask Nat Nat)).alert = false) :=
  task_queue_capacity_128 4 (fun _ => Except.ok 0) ⟨[], false⟩
    (by decide) []
